import Mathlib

/-!
# Verification of the SAWDA canvas editor (`src/components/ImageEditor.tsx`)

A shallow embedding of the editor's pure logic, translated from the
TypeScript source:

* the DXF scanline vectorizer `generateDxf` (lines 244-283),
* the history stack `saveState` / `handleUndo` / `handleResetEdits`,
* the viewport transform `getTransformedPoint` / `handleWheel` /
  `handleZoomChange`,
* the download pipeline `handleDownload` and its file naming
  `getFileName`,
* the `image.onload` handler that (re)initialises the buffer and history.

JavaScript numbers are modelled as rationals (`ℚ`) where the code does
real arithmetic (the viewport transform) and as `Nat` where the code
manipulates pixel bytes and indices.  JavaScript array reads out of
range yield `undefined`, which compares false against numbers; the
embedding uses `List.getD` with defaults chosen so that an out-of-range
read is never classified as ink, matching that behaviour.
-/

/-- A raster buffer in the shape of the browser's `ImageData`: a width,
a height, and a flat list of bytes, four per pixel (RGBA), row-major. -/
structure ImgData where
  width : Nat
  height : Nat
  data : List Nat
deriving DecidableEq

/-- Red channel of pixel `(x, y)`: byte `(y * width + x) * 4` of the
flat data, as read by `generateDxf`.  Out-of-range reads default to
255 so that, as in JavaScript (`undefined < 128` is false), they are
never dark. -/
def redChannel (data : List Nat) (width x y : Nat) : Nat :=
  data.getD ((y * width + x) * 4) 255

/-- Alpha channel of pixel `(x, y)`: byte `(y * width + x) * 4 + 3`.
Out-of-range reads default to 0 so that, as in JavaScript
(`undefined > 128` is false), they are never opaque. -/
def alphaChannel (data : List Nat) (width x y : Nat) : Nat :=
  data.getD ((y * width + x) * 4 + 3) 0

/-- The grayscale threshold of `generateDxf` (`const threshold = 128`). -/
def threshold : Nat := 128

/-- `isBlack data width x y` is the ink test of `generateDxf`:
`data[index] < threshold && data[index + 3] > threshold` for
`index = (y * width + x) * 4`. -/
def isBlack (data : List Nat) (width x y : Nat) : Bool :=
  decide (redChannel data width x y < threshold) &&
  decide (alphaChannel data width x y > threshold)

/-- The inner column loop of `generateDxf`, returning the emitted
`(startX, endX)` pairs in emission order.  `n` is the number of columns
still to scan, `x` the current column, and the third argument the
`inSegment`/`startX` state of the loop (`some s` when a run that began
at column `s` is open).  When the fuel runs out (`x` has reached
`width`) an open run is closed with `endX = x - 1 = width - 1`, exactly
as the post-loop `if (inSegment)` branch does; the `s ≤ x - 1` guards
are the source's `if (startX <= endX)` checks. -/
def scanRowAux (ink : Nat → Bool) : Nat → Nat → Option Nat → List (Nat × Nat)
  | 0, _, none => []
  | 0, x, some s => if s ≤ x - 1 then [(s, x - 1)] else []
  | n + 1, x, none =>
      if ink x then scanRowAux ink n (x + 1) (some x)
      else scanRowAux ink n (x + 1) none
  | n + 1, x, some s =>
      if ink x then scanRowAux ink n (x + 1) (some s)
      else if s ≤ x - 1 then (s, x - 1) :: scanRowAux ink n (x + 1) none
      else scanRowAux ink n (x + 1) none

/-- One full row scan of `generateDxf`: columns `0 .. width - 1`,
starting with `inSegment = false`. -/
def scanRow (ink : Nat → Bool) (width : Nat) : List (Nat × Nat) :=
  scanRowAux ink width 0 none

/-- `isMaxRun ink width s e`: columns `s .. e` form a maximal contiguous
ink run of a row of `width` columns — the run is nonempty, lies inside
the row, is all ink, and extends neither left nor right. -/
def isMaxRun (ink : Nat → Bool) (width s e : Nat) : Prop :=
  s ≤ e ∧ e < width ∧ (∀ i, s ≤ i → i ≤ e → ink i = true) ∧
    (s = 0 ∨ ink (s - 1) = false) ∧ (e + 1 = width ∨ ink (e + 1) = false)

instance (ink : Nat → Bool) (width s e : Nat) : Decidable (isMaxRun ink width s e) := by
  have : Decidable (∀ i, s ≤ i → i ≤ e → ink i = true) := by
    refine decidable_of_iff (∀ i, i < e + 1 → s ≤ i → ink i = true) ?_
    constructor
    · intro h i hs hie
      exact h i (Nat.lt_succ_of_le hie) hs
    · intro h i hlt hs
      exact h i hs (Nat.le_of_lt_succ hlt)
  unfold isMaxRun
  exact inferInstance

/-- The loop invariant of `generateDxf`'s column scan at column `x`:
with no open run, the previous column (if any) was not ink; with a run
open since column `s`, columns `s .. x - 1` are ink and the run cannot
extend left. -/
def scanInv (ink : Nat → Bool) (x : Nat) : Option Nat → Prop
  | none => x = 0 ∨ ink (x - 1) = false
  | some s => s < x ∧ (∀ i, s ≤ i → i < x → ink i = true) ∧
      (s = 0 ∨ ink (s - 1) = false)

/-- Sequential string concatenation, as the source's `dxfContent += ...`
accumulation. -/
def strJoin : List String → String
  | [] => ""
  | a :: l => a ++ strJoin l

/-- One DXF `LINE` entity as emitted by `generateDxf`: layer tag `8`/`0`
and the two 2D endpoints as group codes `10`/`20` and `11`/`21`. -/
def lineEntity (startX endX dxfY : Nat) : String :=
  "0\nLINE\n8\n0\n10\n" ++ toString startX ++ "\n20\n" ++ toString dxfY ++
  "\n11\n" ++ toString endX ++ "\n21\n" ++ toString dxfY ++ "\n"

/-- The inner column loop of `generateDxf` again, this time returning the
text it appends to `dxfContent` (the same recursion as `scanRowAux`,
emitting `lineEntity` strings instead of pairs). -/
def dxfRowStrAux (ink : Nat → Bool) (dxfY : Nat) : Nat → Nat → Option Nat → String
  | 0, _, none => ""
  | 0, x, some s => if s ≤ x - 1 then lineEntity s (x - 1) dxfY else ""
  | n + 1, x, none =>
      if ink x then dxfRowStrAux ink dxfY n (x + 1) (some x)
      else dxfRowStrAux ink dxfY n (x + 1) none
  | n + 1, x, some s =>
      if ink x then dxfRowStrAux ink dxfY n (x + 1) (some s)
      else if s ≤ x - 1 then
        lineEntity s (x - 1) dxfY ++ dxfRowStrAux ink dxfY n (x + 1) none
      else dxfRowStrAux ink dxfY n (x + 1) none

/-- The opening of `generateDxf`'s output (`0 SECTION 2 ENTITIES`). -/
def dxfHeader : String := "0\nSECTION\n2\nENTITIES\n"

/-- The closing of `generateDxf`'s output (`0 ENDSEC 0 EOF`). -/
def dxfFooter : String := "0\nENDSEC\n0\nEOF\n"

/-- The ink predicate of row `y` of a buffer, as `generateDxf` computes it. -/
def rowInk (img : ImgData) (y : Nat) : Nat → Bool :=
  fun x => isBlack img.data img.width x y

/-- `generateDxf` (ImageEditor.tsx lines 244-283): header, then for each
row `y` of the buffer the scanline output at DXF Y coordinate
`height - 1 - y`, then the footer. -/
def generateDxf (img : ImgData) : String :=
  dxfHeader ++
  strJoin ((List.range img.height).map (fun y =>
    dxfRowStrAux (rowInk img y) (img.height - 1 - y) img.width 0 none)) ++
  dxfFooter

/-- The `(startX, endX, dxfY)` triples of the LINE entities of row `y`. -/
def rowTriples (img : ImgData) (y : Nat) : List (Nat × Nat × Nat) :=
  (scanRow (rowInk img y) img.width).map (fun p => (p.1, p.2, img.height - 1 - y))

/-- All `(startX, endX, dxfY)` triples of the LINE entities of
`generateDxf`, in emission order. -/
def dxfSegs (img : ImgData) : List (Nat × Nat × Nat) :=
  (List.range img.height).flatMap (rowTriples img)

/-- The synthetic 4×1 buffer of the specification: row 0 is
[ink, ink, non-ink, ink] (ink = opaque black, non-ink = opaque white). -/
def sample4x1 : ImgData :=
  ⟨4, 1, [0, 0, 0, 255, 0, 0, 0, 255, 255, 255, 255, 255, 0, 0, 0, 255]⟩

/-- `handleUndo` (ImageEditor.tsx lines 205-209): decrement the history
index when it is positive, otherwise do nothing.  The index is an `Int`
because the editor initialises `historyIndex` to `-1`. -/
def handleUndo (historyIndex : Int) : Int :=
  if historyIndex > 0 then historyIndex - 1 else historyIndex

/-- `k` successive presses of the Undo button. -/
def undoIter : Nat → Int → Int
  | 0, i => i
  | k + 1, i => handleUndo (undoIter k i)

/-- `handleResetEdits` (lines 211-215): jump to index 0 when any history
exists; with empty history nothing happens. -/
def handleResetEdits (history : List ImgData) (historyIndex : Int) : Int :=
  if history.length > 0 then 0 else historyIndex

/-- `saveState` (lines 85-93): truncate the history to entries
`0 .. historyIndex` (`history.slice(0, historyIndex + 1)`), append the
current buffer, and point the index at the new last entry
(`newHistory.length - 1`). -/
def saveState (currentData : ImgData) (history : List ImgData) (historyIndex : Int) :
    List ImgData × Int :=
  (history.take (historyIndex + 1).toNat ++ [currentData],
   ((history.take (historyIndex + 1).toNat ++ [currentData]).length : Int) - 1)

/-- Buffers used as concrete history entries in witnesses. -/
def bufA : ImgData := ⟨1, 1, [0, 0, 0, 255]⟩

def bufB : ImgData := ⟨1, 1, [255, 255, 255, 255]⟩

def bufC : ImgData := ⟨1, 1, [7, 7, 7, 255]⟩

def bufD : ImgData := ⟨1, 1, [9, 9, 9, 255]⟩

/-- The view transform of the editor: a uniform scale and a 2D pixel
offset (`interface ViewTransform`), with JavaScript numbers modelled as
rationals. -/
structure ViewTransform where
  scale : ℚ
  offsetX : ℚ
  offsetY : ℚ
deriving DecidableEq

/-- `getTransformedPoint` (lines 51-56): device point to model point,
`(device - offset) / scale` per axis. -/
def toModelSpace (vt : ViewTransform) (x y : ℚ) : ℚ × ℚ :=
  ((x - vt.offsetX) / vt.scale, (y - vt.offsetY) / vt.scale)

/-- `handleWheel` (lines 190-203): factor 1.1 per wheel step, zooming in
for `deltaY < 0` and out otherwise; the new scale is clamped to
[0.1, 10] and the offset recomputed about the mouse point. -/
def handleWheel (vt : ViewTransform) (offsetX offsetY deltaY : ℚ) : ViewTransform :=
  let zoomFactor : ℚ := 11/10
  let newScale : ℚ := if deltaY < 0 then vt.scale * zoomFactor else vt.scale / zoomFactor
  let clampedScale : ℚ := max (1/10) (min newScale 10)
  { scale := clampedScale,
    offsetX := offsetX - (offsetX - vt.offsetX) * (clampedScale / vt.scale),
    offsetY := offsetY - (offsetY - vt.offsetY) * (clampedScale / vt.scale) }

/-- The direction argument of the zoom buttons (`'in' | 'out' | 'reset'`). -/
inductive ZoomDirection
  | zin
  | zout
  | zreset
deriving DecidableEq

/-- `handleZoomChange` (lines 301-316): reset restores the identity
transform; in/out apply factor 1.2, clamp the new scale to [0.1, 10]
and recompute the offset about the container centre. -/
def handleZoomChange (dir : ZoomDirection) (centerX centerY : ℚ)
    (vt : ViewTransform) : ViewTransform :=
  match dir with
  | .zreset => { scale := 1, offsetX := 0, offsetY := 0 }
  | _ =>
    let zoomFactor : ℚ := 12/10
    let newScale : ℚ :=
      match dir with
      | .zin => vt.scale * zoomFactor
      | _ => vt.scale / zoomFactor
    let clampedScale : ℚ := max (1/10) (min newScale 10)
    { scale := clampedScale,
      offsetX := centerX - (centerX - vt.offsetX) * (clampedScale / vt.scale),
      offsetY := centerY - (centerY - vt.offsetY) * (clampedScale / vt.scale) }

/-- One zoom interaction: a wheel event over the canvas or one of the
three zoom buttons. -/
inductive ZoomOp
  | wheel (offsetX offsetY deltaY : ℚ)
  | button (dir : ZoomDirection) (centerX centerY : ℚ)

/-- Apply one zoom interaction to the view transform. -/
def applyZoomOp (vt : ViewTransform) : ZoomOp → ViewTransform
  | .wheel ox oy dy => handleWheel vt ox oy dy
  | .button dir cx cy => handleZoomChange dir cx cy vt

/-- Apply a sequence of zoom interactions in order. -/
def applyZoomOps (ops : List ZoomOp) (vt : ViewTransform) : ViewTransform :=
  ops.foldl applyZoomOp vt

/-- The transform the editor starts from (`{ scale: 1, offset: {x:0,y:0} }`). -/
def initialViewTransform : ViewTransform := ⟨1, 0, 0⟩

/-- JavaScript's `toLowerCase` on the ASCII strings the editor handles:
lower-case every character. -/
def jsToLower (s : String) : String := String.mk (s.data.map Char.toLower)

/-- JavaScript's `String.prototype.replace` called with a
single-character string pattern, as in `.replace(' ', '-')`: it
replaces only the FIRST occurrence of the pattern. -/
def jsReplaceFirst : List Char → Char → Char → List Char
  | [], _, _ => []
  | c :: rest, pat, rep =>
      if c = pat then rep :: rest else c :: jsReplaceFirst rest pat rep

/-- `getFileName` (line 232):
`cnc-design-${material.toLowerCase()}-${designType.toLowerCase().replace(' ', '-')}.${ext}`.
Only the design type gets the (first-occurrence) space replacement; the
material is merely lower-cased. -/
def getFileName (material designType ext : String) : String :=
  "cnc-design-" ++ jsToLower material ++ "-" ++
    String.mk (jsReplaceFirst (jsToLower designType).data ' ' '-') ++ "." ++ ext

/-- The tool selection (`type Tool = 'brush' | 'eraser' | 'pan'`). -/
inductive Tool
  | brush
  | eraser
  | pan
deriving DecidableEq

/-- The editor's React state: canvas dimensions, the history stack with
its index, the view transform, the tool state and the interaction
flags. -/
structure EditorState where
  canvasWidth : Nat
  canvasHeight : Nat
  history : List ImgData
  historyIndex : Int
  viewTransform : ViewTransform
  tool : Tool
  lineWidth : Nat
  isDrawing : Bool
  isPanning : Bool
  isDownloadMenuOpen : Bool
deriving DecidableEq

/-- `image.onload` (lines 104-115): resize the canvas only when the new
image's dimensions differ, draw the image, then unconditionally set the
history to the single freshly-read buffer at index 0 and reset the view
transform to identity. -/
def imageOnload (imageWidth imageHeight : Nat) (newImage : ImgData)
    (st : EditorState) : EditorState :=
  let st1 :=
    if st.canvasWidth ≠ imageWidth ∨ st.canvasHeight ≠ imageHeight then
      { st with canvasWidth := imageWidth, canvasHeight := imageHeight }
    else st
  { st1 with history := [newImage], historyIndex := 0,
             viewTransform := initialViewTransform }

/-- A concrete editor state: 1×1 canvas, two history entries, index 1. -/
def sameDimsState : EditorState :=
  { canvasWidth := 1, canvasHeight := 1, history := [bufA, bufB], historyIndex := 1,
    viewTransform := initialViewTransform, tool := .brush, lineWidth := 5,
    isDrawing := false, isPanning := false, isDownloadMenuOpen := false }

/-- Export formats of the download menu. -/
inductive ExportFormat
  | png
  | jpeg
  | svg
  | dxf
deriving DecidableEq

/-- The extension string `handleDownload` passes to `getFileName`. -/
def formatExt : ExportFormat → String
  | .png => "png"
  | .jpeg => "jpeg"
  | .svg => "svg"
  | .dxf => "dxf"

/-- The payload of a produced download.  PNG/JPEG raster encoding and
the PNG data URL embedded in the SVG wrapper call `canvas.toDataURL`, a
browser primitive outside this embedding; those constructors record the
snapshot (and JPEG quality 0.9, SVG width/height) that the code hands
it.  The DXF text is computed in full by `generateDxf`. -/
inductive DownloadPayload
  | rasterPng (data : ImgData)
  | rasterJpeg (data : ImgData) (quality : ℚ)
  | svgWrapper (width height : Nat) (data : ImgData)
  | dxfText (content : String)
deriving DecidableEq

/-- A produced client-side download: file name and payload. -/
structure DownloadFile where
  name : String
  payload : DownloadPayload
deriving DecidableEq

/-- A fresh canvas's pixels: `getImageData` on an untouched canvas
yields all-zero bytes. -/
def blankData (w h : Nat) : List Nat := List.replicate (w * h * 4) 0

/-- The snapshot `handleDownload` paints onto its temp canvas: the
entry at `historyIndex` when `history.length > 0 && history[historyIndex]`
is an actual entry (JavaScript indexing is undefined — falsy — outside
`[0, length)`), otherwise the blank temp canvas.  The entry has the
canvas's dimensions in every reachable state, so reading the temp
canvas back (`getImageData` after `putImageData`) returns it as is. -/
def downloadSnapshot (w h : Nat) (st : EditorState) : ImgData :=
  if 0 ≤ st.historyIndex then
    match st.history.get? st.historyIndex.toNat with
    | some d => d
    | none => ⟨w, h, blankData w h⟩
  else ⟨w, h, blankData w h⟩

/-- `handleDownload` (lines 217-299).  `canvas` is `canvasRef.current`
(`none` models the not-yet-initialised early return, which changes
nothing at all).  Otherwise the handler reads the current snapshot,
builds the artifact for the chosen format with its file name, and
closes the download menu — `setIsDownloadMenuOpen(false)` is its only
state write. -/
def handleDownload (canvas : Option (Nat × Nat)) (fmt : ExportFormat)
    (material designType : String) (st : EditorState) :
    EditorState × Option DownloadFile :=
  match canvas with
  | none => (st, none)
  | some (w, h) =>
    let snapshot := downloadSnapshot w h st
    let name := getFileName material designType (formatExt fmt)
    let payload : DownloadPayload :=
      match fmt with
      | .png => .rasterPng snapshot
      | .jpeg => .rasterJpeg snapshot (9/10)
      | .svg => .svgWrapper w h snapshot
      | .dxf => .dxfText (generateDxf snapshot)
    ({ st with isDownloadMenuOpen := false }, some ⟨name, payload⟩)

/-- A run that is open at column `x` with everything to its right in the
row either finished (`x = width`) or non-ink at `x` is the maximal run
ending at `x - 1`. -/
theorem isMaxRun_of_open (ink : Nat → Bool) (w x s : Nat)
    (hxw : x ≤ w) (hsx : s < x)
    (hink : ∀ i, s ≤ i → i < x → ink i = true)
    (hleft : s = 0 ∨ ink (s - 1) = false)
    (hstop : x = w ∨ ink x = false) :
    isMaxRun ink w s (x - 1) := by
  refine ⟨by omega, by omega, ?_, hleft, ?_⟩
  · intro i his hie
    exact hink i his (by omega)
  · have hx1 : x - 1 + 1 = x := by omega
    rw [hx1]
    rcases hstop with h | h
    · exact Or.inl h
    · exact Or.inr h

/-- Conversely, with a run open since `s` at column `x` and the scan
stopped at `x` (row end or non-ink), the only maximal run starting at
`s` ends at `x - 1`. -/
theorem isMaxRun_end_unique (ink : Nat → Bool) (w x s e : Nat)
    (hxw : x ≤ w) (hsx : s < x)
    (hink : ∀ i, s ≤ i → i < x → ink i = true)
    (hstop : x = w ∨ ink x = false)
    (hrun : isMaxRun ink w s e) : e = x - 1 := by
  obtain ⟨hse, hew, hall, _, hright⟩ := hrun
  by_contra hne
  rcases Nat.lt_or_ge e (x - 1) with hlt | hge
  · -- the run would stop strictly before `x - 1`, but `e + 1 < x` is ink
    have hi : ink (e + 1) = true := hink (e + 1) (by omega) (by omega)
    rcases hright with h | h
    · omega
    · rw [h] at hi
      exact Bool.false_ne_true hi
  · -- the run would reach `x`, but the scan stopped there
    have hex : x ≤ e := by omega
    rcases hstop with h | h
    · omega
    · have hi : ink x = true := hall x (by omega) hex
      rw [h] at hi
      exact Bool.false_ne_true hi

/-- No maximal run starts at a column whose left neighbour is ink. -/
theorem not_isMaxRun_of_left_ink (ink : Nat → Bool) (w p e : Nat)
    (hp : 0 < p) (hl : ink (p - 1) = true) : ¬ isMaxRun ink w p e := by
  rintro ⟨_, _, _, hleft, _⟩
  rcases hleft with h | h
  · omega
  · rw [h] at hl
    exact Bool.false_ne_true hl

/-- No maximal run starts at a non-ink column. -/
theorem not_isMaxRun_of_not_ink (ink : Nat → Bool) (w p e : Nat)
    (hp : ink p = false) : ¬ isMaxRun ink w p e := by
  rintro ⟨hse, _, hall, _, _⟩
  have := hall p le_rfl hse
  rw [hp] at this
  exact Bool.false_ne_true this

/-- Extending the invariant when the scan opens a run at an ink column. -/
theorem scanInv_open (ink : Nat → Bool) (x : Nat) (hinv : scanInv ink x none)
    (hx : ink x = true) : scanInv ink (x + 1) (some x) := by
  refine ⟨by omega, ?_, hinv⟩
  intro i h1 h2
  rw [show i = x by omega]
  exact hx

/-- Extending the invariant when the scan continues an open run. -/
theorem scanInv_continue (ink : Nat → Bool) (x s : Nat)
    (hinv : scanInv ink x (some s)) (hx : ink x = true) :
    scanInv ink (x + 1) (some s) := by
  obtain ⟨hsx, hink, hleft⟩ := hinv
  refine ⟨by omega, ?_, hleft⟩
  intro i h1 h2
  rcases Nat.lt_or_ge i x with h' | h'
  · exact hink i h1 h'
  · rw [show i = x by omega]
    exact hx

/-- Extending the invariant when the scan passes a non-ink column. -/
theorem scanInv_close (ink : Nat → Bool) (x : Nat) (hx : ink x = false) :
    scanInv ink (x + 1) none := by
  exact Or.inr (by simpa using hx)

/-- Characterisation of the column scan: a pair is emitted by
`scanRowAux` from state `(x, o)` exactly when it is a maximal ink run
that is either the currently open run or starts at or after `x`. -/
theorem scanRowAux_mem (ink : Nat → Bool) (w : Nat) :
    ∀ (n x : Nat) (o : Option Nat), x + n = w → scanInv ink x o →
      ∀ p e, ((p, e) ∈ scanRowAux ink n x o ↔
        isMaxRun ink w p e ∧ (x ≤ p ∨ o = some p)) := by
  intro n
  induction n with
  | zero =>
    intro x o hw hinv p e
    match o with
    | none =>
      simp only [scanRowAux, List.not_mem_nil, false_iff]
      rintro ⟨⟨hse, hew, _⟩, hc⟩
      rcases hc with h | h
      · omega
      · exact Option.noConfusion h
    | some s =>
      obtain ⟨hsx, hink, hleft⟩ := hinv
      have hguard : s ≤ x - 1 := by omega
      simp only [scanRowAux, if_pos hguard, List.mem_singleton, Prod.mk.injEq]
      constructor
      · rintro ⟨hp, he⟩
        refine ⟨?_, Or.inr (by rw [hp])⟩
        rw [hp, he]
        exact isMaxRun_of_open ink w x s (by omega) hsx hink hleft (Or.inl (by omega))
      · rintro ⟨hrun, hc⟩
        have hps : p = s := by
          rcases hc with h | h
          · have h1 : p ≤ e := hrun.1
            have h2 : e < w := hrun.2.1
            omega
          · exact (Option.some_inj.mp h).symm
        subst hps
        exact ⟨rfl, isMaxRun_end_unique ink w x p e (by omega) hsx hink
          (Or.inl (by omega)) hrun⟩
  | succ m ih =>
    intro x o hw hinv p e
    match o with
    | none =>
      by_cases hx : ink x = true
      · simp only [scanRowAux, if_pos hx]
        rw [ih (x + 1) (some x) (by omega) (scanInv_open ink x hinv hx)]
        constructor
        · rintro ⟨hrun, hc⟩
          refine ⟨hrun, Or.inl ?_⟩
          rcases hc with h | h
          · omega
          · have : x = p := Option.some_inj.mp h
            omega
        · rintro ⟨hrun, hc⟩
          refine ⟨hrun, ?_⟩
          rcases hc with h | h
          · rcases Nat.eq_or_lt_of_le h with h' | h'
            · exact Or.inr (by rw [h'])
            · exact Or.inl (by omega)
          · exact Option.noConfusion h
      · rw [Bool.not_eq_true] at hx
        simp only [scanRowAux, hx, Bool.false_eq_true, if_false]
        rw [ih (x + 1) none (by omega) (scanInv_close ink x hx)]
        constructor
        · rintro ⟨hrun, hc⟩
          refine ⟨hrun, ?_⟩
          rcases hc with h | h
          · exact Or.inl (by omega)
          · exact Option.noConfusion h
        · rintro ⟨hrun, hc⟩
          refine ⟨hrun, Or.inl ?_⟩
          rcases hc with h | h
          · rcases Nat.eq_or_lt_of_le h with h' | h'
            · exact absurd hrun (h' ▸ not_isMaxRun_of_not_ink ink w x e hx)
            · omega
          · exact Option.noConfusion h
    | some s =>
      by_cases hx : ink x = true
      · simp only [scanRowAux, if_pos hx]
        rw [ih (x + 1) (some s) (by omega) (scanInv_continue ink x s hinv hx)]
        obtain ⟨hsx, hink, hleft⟩ := hinv
        constructor
        · rintro ⟨hrun, hc⟩
          refine ⟨hrun, ?_⟩
          rcases hc with h | h
          · exact Or.inl (by omega)
          · exact Or.inr h
        · rintro ⟨hrun, hc⟩
          refine ⟨hrun, ?_⟩
          rcases hc with h | h
          · rcases Nat.eq_or_lt_of_le h with h' | h'
            · -- a run cannot start at `x`: its left neighbour `x - 1` is ink
              exact absurd hrun (h' ▸ not_isMaxRun_of_left_ink ink w x e (by omega)
                (hink (x - 1) (by omega) (by omega)))
            · exact Or.inl (by omega)
          · exact Or.inr h
      · rw [Bool.not_eq_true] at hx
        obtain ⟨hsx, hink, hleft⟩ := hinv
        have hguard : s ≤ x - 1 := by omega
        simp only [scanRowAux, hx, Bool.false_eq_true, if_false, if_pos hguard,
          List.mem_cons, Prod.mk.injEq]
        rw [ih (x + 1) none (by omega) (scanInv_close ink x hx)]
        constructor
        · rintro (⟨hp, he⟩ | ⟨hrun, hc⟩)
          · refine ⟨?_, Or.inr (by rw [hp])⟩
            rw [hp, he]
            exact isMaxRun_of_open ink w x s (by omega) hsx hink hleft (Or.inr hx)
          · rcases hc with h | h
            · exact ⟨hrun, Or.inl (by omega)⟩
            · exact Option.noConfusion h
        · rintro ⟨hrun, hc⟩
          rcases hc with h | h
          · rcases Nat.eq_or_lt_of_le h with h' | h'
            · exact absurd hrun (h' ▸ not_isMaxRun_of_not_ink ink w x e hx)
            · exact Or.inr ⟨hrun, Or.inl (by omega)⟩
          · have hps : p = s := (Option.some_inj.mp h).symm
            subst hps
            exact Or.inl ⟨rfl, isMaxRun_end_unique ink w x p e (by omega) hsx hink
              (Or.inr hx) hrun⟩

/-- The column scan never emits the same pair twice: emitted runs have
strictly increasing start columns. -/
theorem scanRowAux_nodup (ink : Nat → Bool) (w : Nat) :
    ∀ (n x : Nat) (o : Option Nat), x + n = w → scanInv ink x o →
      (scanRowAux ink n x o).Nodup := by
  intro n
  induction n with
  | zero =>
    intro x o hw hinv
    match o with
    | none => simp [scanRowAux]
    | some s =>
      obtain ⟨hsx, _, _⟩ := hinv
      have hguard : s ≤ x - 1 := by omega
      simp [scanRowAux, if_pos hguard]
  | succ m ih =>
    intro x o hw hinv
    match o with
    | none =>
      by_cases hx : ink x = true
      · simp only [scanRowAux, if_pos hx]
        exact ih (x + 1) (some x) (by omega) (scanInv_open ink x hinv hx)
      · rw [Bool.not_eq_true] at hx
        simp only [scanRowAux, hx, Bool.false_eq_true, if_false]
        exact ih (x + 1) none (by omega) (scanInv_close ink x hx)
    | some s =>
      by_cases hx : ink x = true
      · simp only [scanRowAux, if_pos hx]
        exact ih (x + 1) (some s) (by omega) (scanInv_continue ink x s hinv hx)
      · rw [Bool.not_eq_true] at hx
        obtain ⟨hsx, hink, hleft⟩ := hinv
        have hguard : s ≤ x - 1 := by omega
        have hinv' : scanInv ink (x + 1) none := scanInv_close ink x hx
        simp only [scanRowAux, hx, Bool.false_eq_true, if_false, if_pos hguard]
        refine List.nodup_cons.mpr ⟨?_, ih (x + 1) none (by omega) hinv'⟩
        intro hmem
        have := (scanRowAux_mem ink w m (x + 1) none (by omega) hinv' s (x - 1)).mp hmem
        rcases this.2 with h | h
        · omega
        · exact Option.noConfusion h

/-- `scanRow` emits exactly the maximal contiguous ink runs of the row,
each with its inclusive first and last column. -/
theorem scanRow_mem (ink : Nat → Bool) (w : Nat) (p e : Nat) :
    (p, e) ∈ scanRow ink w ↔ isMaxRun ink w p e := by
  rw [scanRow, scanRowAux_mem ink w w 0 none (by omega) (Or.inl rfl)]
  constructor
  · exact fun h => h.1
  · exact fun h => ⟨h, Or.inl (Nat.zero_le p)⟩

/-- `scanRow` emits each run only once. -/
theorem scanRow_nodup (ink : Nat → Bool) (w : Nat) : (scanRow ink w).Nodup :=
  scanRowAux_nodup ink w w 0 none (by omega) (Or.inl rfl)

theorem strJoin_append (l₁ l₂ : List String) :
    strJoin (l₁ ++ l₂) = strJoin l₁ ++ strJoin l₂ := by
  induction l₁ with
  | nil => simp [strJoin]
  | cons a l ih => simp [strJoin, ih, String.append_assoc]

theorem strJoin_flatMap {α : Type} (f : α → List String) (l : List α) :
    strJoin (l.flatMap f) = strJoin (l.map fun a => strJoin (f a)) := by
  induction l with
  | nil => rfl
  | cons a l ih => simp only [List.flatMap_cons, List.map_cons, strJoin_append, strJoin, ih]

/-- The text the column loop appends is exactly the concatenation of one
`lineEntity` per emitted pair. -/
theorem dxfRowStrAux_eq (ink : Nat → Bool) (dxfY : Nat) :
    ∀ (n x : Nat) (o : Option Nat),
      dxfRowStrAux ink dxfY n x o =
        strJoin ((scanRowAux ink n x o).map (fun p => lineEntity p.1 p.2 dxfY)) := by
  intro n
  induction n with
  | zero =>
    intro x o
    match o with
    | none => rfl
    | some s =>
      by_cases h : s ≤ x - 1 <;>
        simp [dxfRowStrAux, scanRowAux, h, strJoin]
  | succ m ih =>
    intro x o
    match o with
    | none =>
      by_cases hx : ink x
      · simp only [dxfRowStrAux, scanRowAux, if_pos hx, ih]
      · simp only [dxfRowStrAux, scanRowAux, if_neg hx, ih]
    | some s =>
      by_cases hx : ink x
      · simp only [dxfRowStrAux, scanRowAux, if_pos hx, ih]
      · by_cases hg : s ≤ x - 1
        · simp only [dxfRowStrAux, scanRowAux, if_neg hx, if_pos hg, ih,
            List.map_cons, strJoin]
        · simp only [dxfRowStrAux, scanRowAux, if_neg hx, if_neg hg, ih]

/-- `generateDxf` is the header, one `lineEntity` per triple of
`dxfSegs` in order, and the footer — nothing else. -/
theorem generateDxf_eq_segs (img : ImgData) :
    generateDxf img =
      dxfHeader ++
      strJoin ((dxfSegs img).map (fun t => lineEntity t.1 t.2.1 t.2.2)) ++
      dxfFooter := by
  unfold generateDxf dxfSegs
  congr 2
  rw [List.map_flatMap, strJoin_flatMap]
  refine congrArg strJoin (List.map_congr_left ?_)
  intro y _
  rw [dxfRowStrAux_eq, rowTriples, List.map_map]
  rfl

/-- Every triple of row `y` carries the DXF Y coordinate
`height - 1 - y`. -/
theorem rowTriples_third (img : ImgData) (y : Nat) (t : Nat × Nat × Nat)
    (ht : t ∈ rowTriples img y) : t.2.2 = img.height - 1 - y := by
  rw [rowTriples] at ht
  obtain ⟨p, _, hp⟩ := List.mem_map.mp ht
  rw [← hp]

/-- A triple appears among the emitted LINE entities exactly when it is
a maximal ink run of some row `y`, tagged with DXF Y `height - 1 - y`. -/
theorem dxfSegs_mem (img : ImgData) (p e dY : Nat) :
    (p, e, dY) ∈ dxfSegs img ↔
      ∃ y, y < img.height ∧ dY = img.height - 1 - y ∧
        isMaxRun (rowInk img y) img.width p e := by
  rw [dxfSegs, List.mem_flatMap]
  constructor
  · rintro ⟨y, hy, ht⟩
    rw [rowTriples] at ht
    obtain ⟨q, hq, hqe⟩ := List.mem_map.mp ht
    have h1 : q.1 = p := congrArg Prod.fst hqe
    have h2 : q.2 = e := congrArg (fun t => t.2.1) hqe
    have h3 : img.height - 1 - y = dY := congrArg (fun t => t.2.2) hqe
    refine ⟨y, List.mem_range.mp hy, h3.symm, ?_⟩
    have hq' : q = (p, e) := Prod.ext h1 h2
    rw [hq'] at hq
    exact (scanRow_mem (rowInk img y) img.width p e).mp hq
  · rintro ⟨y, hy, hdY, hrun⟩
    refine ⟨y, List.mem_range.mpr hy, ?_⟩
    rw [rowTriples, hdY]
    exact List.mem_map.mpr ⟨(p, e), (scanRow_mem (rowInk img y) img.width p e).mpr hrun, rfl⟩

/-- Distinct rows emit triples with distinct DXF Y coordinates, so the
full entity list repeats no triple. -/
theorem dxfSegs_nodup (img : ImgData) : (dxfSegs img).Nodup := by
  rw [dxfSegs, List.nodup_flatMap]
  constructor
  · intro y _
    rw [rowTriples]
    refine List.Nodup.map ?_ (scanRow_nodup (rowInk img y) img.width)
    intro a b hab
    exact congrArg (fun t : Nat × Nat × Nat => (t.1, t.2.1)) hab
  · refine List.Nodup.pairwise_of_forall_ne (List.nodup_range img.height) ?_
    intro y hy y' hy' hne t ht ht'
    have h1 := rowTriples_third img y t ht
    have h2 := rowTriples_third img y' t ht'
    rw [List.mem_range] at hy hy'
    omega

/-- C1: the DXF export classifies a pixel as ink exactly when its red
channel is below 128 and its alpha channel is above 128; scanning each
row left to right it emits exactly one LINE entity per maximal
contiguous ink run, spanning the run's first to last column inclusive
(a run still open at the row's end closes at column `width - 1`, which
is the `e + 1 = width` case of `isMaxRun`), with DXF Y coordinate
`height - 1 - y`; and on the 4×1 buffer [ink, ink, non-ink, ink] it
emits exactly the two LINE entities spanning columns 0-1 and 3-3, both
at Y = height - 1 = 0. -/
theorem C1_dxf_scanline_runs :
    (∀ (d : List Nat) (w x y : Nat),
        isBlack d w x y = true ↔
          redChannel d w x y < 128 ∧ alphaChannel d w x y > 128)
  ∧ (∀ (img : ImgData) (p e dY : Nat),
        (p, e, dY) ∈ dxfSegs img ↔
          ∃ y, y < img.height ∧ dY = img.height - 1 - y ∧
            isMaxRun (rowInk img y) img.width p e)
  ∧ (∀ img : ImgData, (dxfSegs img).Nodup)
  ∧ dxfSegs sample4x1 = [(0, 1, 0), (3, 3, 0)]
  ∧ generateDxf sample4x1 =
      dxfHeader ++ (lineEntity 0 1 0 ++ lineEntity 3 3 0) ++ dxfFooter := by
  refine ⟨?_, dxfSegs_mem, dxfSegs_nodup, by decide, ?_⟩
  · intro d w x y
    simp [isBlack, threshold]
  · decide

/-- C7: for every input buffer the DXF export begins with the
SECTION/ENTITIES header, consists of zero or more LINE entities, each
on layer "0" with two 2D endpoints as group codes 10/20 and 11/21, and
ends with the ENDSEC/EOF footer, with nothing else in the document. -/
theorem C7_dxf_document_structure (img : ImgData) :
    ∃ segs : List (Nat × Nat × Nat),
      generateDxf img =
        "0\nSECTION\n2\nENTITIES\n" ++
        strJoin (segs.map (fun t =>
          "0\nLINE\n8\n0\n10\n" ++ toString t.1 ++ "\n20\n" ++ toString t.2.2 ++
          "\n11\n" ++ toString t.2.1 ++ "\n21\n" ++ toString t.2.2 ++ "\n")) ++
        "0\nENDSEC\n0\nEOF\n" :=
  ⟨dxfSegs img, generateDxf_eq_segs img⟩

/-- Undoing `k` times from a nonnegative index lands on
`max 0 (index - k)`. -/
theorem undoIter_eq_max (c : Int) (k : Nat) (hc : 0 ≤ c) :
    undoIter k c = max 0 (c - k) := by
  induction k with
  | zero =>
    rw [undoIter]
    omega
  | succ m ih =>
    rw [undoIter, ih, handleUndo]
    split_ifs with h
    · omega
    · omega

/-- C5: each undo decrements the index by 1 when it is positive and is a
no-op at index 0 (or below, the unloaded state); `K` undos from index
`c ≥ 0` land on `max 0 (c - K)`; reset-edits sets the index to 0 on any
non-empty history and does nothing on an empty one. -/
theorem C5_undo_and_reset :
    (∀ i : Int, 0 < i → handleUndo i = i - 1)
  ∧ (∀ i : Int, i ≤ 0 → handleUndo i = i)
  ∧ (∀ (c : Int) (k : Nat), 0 ≤ c → undoIter k c = max 0 (c - k))
  ∧ (∀ (history : List ImgData) (i : Int), history ≠ [] →
        handleResetEdits history i = 0)
  ∧ (∀ i : Int, handleResetEdits [] i = i) := by
  refine ⟨?_, ?_, undoIter_eq_max, ?_, ?_⟩
  · intro i h
    rw [handleUndo, if_pos h]
  · intro i h
    rw [handleUndo, if_neg (by omega)]
  · intro history i h
    rw [handleResetEdits, if_pos (by simpa [List.length_pos] using h)]
  · intro i
    rfl

/-- Witness for C5 at concrete inputs. -/
theorem C5_undo_and_reset_witness :
    handleUndo 2 = 1 ∧ handleUndo 0 = 0 ∧ undoIter 5 3 = 0 ∧
    handleResetEdits [bufA] 7 = 0 ∧ handleResetEdits [] 7 = 7 := by
  refine ⟨?_, C5_undo_and_reset.2.1 0 le_rfl, ?_, ?_, C5_undo_and_reset.2.2.2.2 7⟩
  · have h := C5_undo_and_reset.1 2 (by norm_num)
    rw [h]
    norm_num
  · have h := C5_undo_and_reset.2.2.1 3 5 (by norm_num)
    rw [h]
    decide
  · exact C5_undo_and_reset.2.2.2.1 [bufA] 7 (by simp)

/-- C4: snapshotting at index `i` first discards every entry with index
greater than `i`, then appends the current buffer; the index lands on
the new last position `i + 1`; any number of subsequent undos keeps the
index within the new history, so only entries of the truncated history
plus the appended buffer can ever be restored. -/
theorem C4_snapshot_discards_redo (currentData : ImgData) (history : List ImgData)
    (i : Int) (h0 : 0 ≤ i) (h1 : i < (history.length : Int)) :
    (saveState currentData history i).1 = history.take (i.toNat + 1) ++ [currentData]
  ∧ (saveState currentData history i).1.length = i.toNat + 2
  ∧ (saveState currentData history i).2 = i + 1
  ∧ (∀ k : Nat, 0 ≤ undoIter k (saveState currentData history i).2 ∧
        undoIter k (saveState currentData history i).2 ≤ i + 1)
  ∧ (∀ (k : Nat) (d : ImgData),
        (saveState currentData history i).1.get?
            (undoIter k (saveState currentData history i).2).toNat = some d →
          d ∈ history.take (i.toNat + 1) ++ [currentData]) := by
  have htake : (i + 1).toNat = i.toNat + 1 := by omega
  have hfst : (saveState currentData history i).1 =
      history.take (i.toNat + 1) ++ [currentData] := by
    rw [saveState, htake]
  have hlen : (saveState currentData history i).1.length = i.toNat + 2 := by
    rw [hfst, List.length_append, List.length_take]
    simp only [List.length_singleton]
    omega
  have hsnd : (saveState currentData history i).2 = i + 1 := by
    have : (saveState currentData history i).2 =
        ((saveState currentData history i).1.length : Int) - 1 := by
      rw [saveState, htake]
    rw [this, hlen]
    omega
  refine ⟨hfst, hlen, hsnd, ?_, ?_⟩
  · intro k
    rw [hsnd, undoIter_eq_max (i + 1) k (by omega)]
    constructor
    · omega
    · omega
  · intro k d hget
    have hd := List.get?_mem hget
    rw [hfst] at hd
    exact hd

/-- Witness for C4: history [A, B, C] at index 1 (after one undo),
snapshotting buffer D. -/
theorem C4_snapshot_discards_redo_witness :
    (saveState bufD [bufA, bufB, bufC] 1).1 = [bufA, bufB, bufD]
  ∧ (saveState bufD [bufA, bufB, bufC] 1).2 = 2
  ∧ undoIter 5 (saveState bufD [bufA, bufB, bufC] 1).2 ≤ 2 := by
  have h := C4_snapshot_discards_redo bufD [bufA, bufB, bufC] 1 (by norm_num) (by norm_num)
  refine ⟨?_, ?_, ?_⟩
  · rw [h.1]
    rfl
  · rw [h.2.2.1]
    norm_num
  · have hk := (h.2.2.2.1 5).2
    omega

/-- The wheel and button zoom share this algebraic shape: clamp a new
scale, recompute the offset about a focal point.  The focal point maps
to the same model point before and after, whenever the old scale is
nonzero and the clamped scale is nonzero. -/
theorem zoom_focal_fixed (s ox oy c px py : ℚ) (hs : s ≠ 0) (hc : c ≠ 0) :
    ((px - (px - (px - ox) * (c / s))) / c, (py - (py - (py - oy) * (c / s))) / c) =
      ((px - ox) / s, (py - oy) / s) := by
  have h1 : (px - (px - (px - ox) * (c / s))) / c = (px - ox) / s := by
    field_simp
    ring
  have h2 : (py - (py - (py - oy) * (c / s))) / c = (py - oy) / s := by
    field_simp
    ring
  rw [h1, h2]

/-- The clamped scale is always at least 0.1 ... -/
theorem clamped_lower (a : ℚ) : 1/10 ≤ max (1/10) (min a 10) :=
  le_max_left _ _

/-- ... and at most 10. -/
theorem clamped_upper (a : ℚ) : max (1/10) (min a 10) ≤ 10 :=
  max_le (by norm_num) (min_le_right _ _)

/-- C3: for every transform with scale in [0.1, 10], every focal device
point and every wheel step (in or out, clamped or not), the model-space
point under the focal device point is unchanged by the zoom. -/
theorem C3_zoom_to_cursor (vt : ViewTransform) (px py deltaY : ℚ)
    (hlo : 1/10 ≤ vt.scale) (hhi : vt.scale ≤ 10) :
    toModelSpace (handleWheel vt px py deltaY) px py = toModelSpace vt px py := by
  have hs : vt.scale ≠ 0 := by
    intro h
    rw [h] at hlo
    norm_num at hlo
  have hc : max (1/10 : ℚ)
      (min (if deltaY < 0 then vt.scale * (11/10) else vt.scale / (11/10)) 10) ≠ 0 := by
    intro h
    have := clamped_lower (if deltaY < 0 then vt.scale * (11/10) else vt.scale / (11/10))
    rw [h] at this
    norm_num at this
  exact zoom_focal_fixed vt.scale vt.offsetX vt.offsetY _ px py hs hc

/-- Witness for C3: identity transform, focal point (5, 7), wheel in. -/
theorem C3_zoom_to_cursor_witness :
    toModelSpace (handleWheel ⟨1, 0, 0⟩ 5 7 (-1)) 5 7 = toModelSpace ⟨1, 0, 0⟩ 5 7 :=
  C3_zoom_to_cursor ⟨1, 0, 0⟩ 5 7 (-1) (by norm_num) (by norm_num)

/-- Every single zoom interaction leaves the scale inside [0.1, 10]. -/
theorem applyZoomOp_scale_bounds (vt : ViewTransform) (op : ZoomOp) :
    1/10 ≤ (applyZoomOp vt op).scale ∧ (applyZoomOp vt op).scale ≤ 10 := by
  match op with
  | .wheel ox oy dy =>
    exact ⟨clamped_lower _, clamped_upper _⟩
  | .button dir cx cy =>
    match dir with
    | .zreset => exact ⟨by norm_num [applyZoomOp, handleZoomChange],
        by norm_num [applyZoomOp, handleZoomChange]⟩
    | .zin => exact ⟨clamped_lower _, clamped_upper _⟩
    | .zout => exact ⟨clamped_lower _, clamped_upper _⟩

/-- C6: starting from scale 1, after every step of any sequence of
wheel and button zoom operations, the scale is within [0.1, 10]. -/
theorem C6_scale_always_clamped (ops : List ZoomOp) (k : Nat) :
    1/10 ≤ (applyZoomOps (ops.take k) initialViewTransform).scale
  ∧ (applyZoomOps (ops.take k) initialViewTransform).scale ≤ 10 := by
  suffices h : ∀ (l : List ZoomOp) (vt : ViewTransform),
      1/10 ≤ vt.scale → vt.scale ≤ 10 →
      1/10 ≤ (applyZoomOps l vt).scale ∧ (applyZoomOps l vt).scale ≤ 10 by
    exact h (ops.take k) initialViewTransform (by norm_num [initialViewTransform])
      (by norm_num [initialViewTransform])
  intro l
  induction l with
  | nil =>
    intro vt h1 h2
    exact ⟨h1, h2⟩
  | cons op rest ih =>
    intro vt h1 h2
    have hop := applyZoomOp_scale_bounds vt op
    exact ih (applyZoomOp vt op) hop.1 hop.2

/-- C10: whenever the clamped new scale equals the current scale (the
scale is pinned at a bound), wheel zoom and button zoom leave the whole
transform — offset included — unchanged. -/
theorem C10_clamped_zoom_is_noop :
    (∀ (vt : ViewTransform) (ox oy dy : ℚ),
        (handleWheel vt ox oy dy).scale = vt.scale → handleWheel vt ox oy dy = vt)
  ∧ (∀ (vt : ViewTransform) (dir : ZoomDirection) (cx cy : ℚ), dir ≠ .zreset →
        (handleZoomChange dir cx cy vt).scale = vt.scale →
          handleZoomChange dir cx cy vt = vt) := by
  constructor
  · intro vt ox oy dy heq
    obtain ⟨s, a, b⟩ := vt
    simp only [handleWheel] at heq ⊢
    have hlo : (1/10 : ℚ) ≤ s := by
      have h := clamped_lower (if dy < 0 then s * (11/10) else s / (11/10))
      rw [heq] at h
      exact h
    have hs : s ≠ 0 := by
      intro h
      rw [h] at hlo
      norm_num at hlo
    have hdiv : max (1/10 : ℚ) (min (if dy < 0 then s * (11/10) else s / (11/10)) 10) / s = 1 := by
      rw [heq]
      exact div_self hs
    rw [ViewTransform.mk.injEq]
    refine ⟨heq, ?_, ?_⟩
    · rw [hdiv]
      ring
    · rw [hdiv]
      ring
  · intro vt dir cx cy hdir heq
    obtain ⟨s, a, b⟩ := vt
    match dir with
    | .zreset => exact absurd rfl hdir
    | .zin =>
      simp only [handleZoomChange] at heq ⊢
      have hlo : (1/10 : ℚ) ≤ s := by
        have h := clamped_lower (s * (12/10))
        rw [heq] at h
        exact h
      have hs : s ≠ 0 := by
        intro h
        rw [h] at hlo
        norm_num at hlo
      have hdiv : max (1/10 : ℚ) (min (s * (12/10)) 10) / s = 1 := by
        rw [heq]
        exact div_self hs
      rw [ViewTransform.mk.injEq]
      refine ⟨heq, ?_, ?_⟩
      · rw [hdiv]
        ring
      · rw [hdiv]
        ring
    | .zout =>
      simp only [handleZoomChange] at heq ⊢
      have hlo : (1/10 : ℚ) ≤ s := by
        have h := clamped_lower (s / (12/10))
        rw [heq] at h
        exact h
      have hs : s ≠ 0 := by
        intro h
        rw [h] at hlo
        norm_num at hlo
      have hdiv : max (1/10 : ℚ) (min (s / (12/10)) 10) / s = 1 := by
        rw [heq]
        exact div_self hs
      rw [ViewTransform.mk.injEq]
      refine ⟨heq, ?_, ?_⟩
      · rw [hdiv]
        ring
      · rw [hdiv]
        ring

/-- Witness for C10: at scale 10 both zooming further in by wheel and by
button clamp to 10 and change nothing. -/
theorem C10_clamped_zoom_is_noop_witness :
    handleWheel ⟨10, 2, 3⟩ 5 6 (-1) = ⟨10, 2, 3⟩ ∧
    handleZoomChange .zin 4 5 ⟨10, 2, 3⟩ = ⟨10, 2, 3⟩ := by
  constructor
  · refine C10_clamped_zoom_is_noop.1 ⟨10, 2, 3⟩ 5 6 (-1) ?_
    norm_num [handleWheel]
  · refine C10_clamped_zoom_is_noop.2 ⟨10, 2, 3⟩ .zin 4 5 (by decide) ?_
    norm_num [handleZoomChange]

/-- Replacing a character that does not occur changes nothing. -/
theorem jsReplaceFirst_of_not_mem (l : List Char) (pat rep : Char)
    (h : ∀ c ∈ l, c ≠ pat) : jsReplaceFirst l pat rep = l := by
  induction l with
  | nil => rfl
  | cons c rest ih =>
    rw [jsReplaceFirst, if_neg (h c (List.mem_cons_self c rest)),
      ih (fun d hd => h d (List.mem_cons_of_mem c hd))]

/-- `jsReplaceFirst` replaces exactly the first occurrence. -/
theorem jsReplaceFirst_first (a b : List Char) (pat rep : Char)
    (h : ∀ c ∈ a, c ≠ pat) :
    jsReplaceFirst (a ++ pat :: b) pat rep = a ++ rep :: b := by
  induction a with
  | nil => simp [jsReplaceFirst]
  | cons c rest ih =>
    simp only [List.cons_append, jsReplaceFirst,
      if_neg (h c (List.mem_cons_self c rest))]
    exact congrArg (fun l => c :: l) (ih (fun d hd => h d (List.mem_cons_of_mem c hd)))

theorem string_mk_data (s : String) : String.mk s.data = s := rfl

/-- C8 counterexample: with material "Wood" and design type "A B C" the
produced file name keeps a space (only the design type's first space is
replaced), so the name is not the metadata with every space turned into
a hyphen. -/
theorem C8_every_space_counterexample :
    getFileName "Wood" "A B C" "png" = "cnc-design-wood-a-b c.png" ∧
    ' ' ∈ (getFileName "Wood" "A B C" "png").data := by
  constructor
  · rfl
  · decide

/-- C8 as amended: the file name is "cnc-design-", the material
lower-cased with its spaces kept, a hyphen, the design type lower-cased
with only its first space replaced by a hyphen, a dot and the format's
extension; it is a pure function of these inputs, so equal inputs give
equal names. -/
theorem C8_filename_shape :
    (∀ (m d e : String) (a b : List Char), (∀ c ∈ a, c ≠ ' ') →
        (jsToLower d).data = a ++ ' ' :: b →
        getFileName m d e =
          "cnc-design-" ++ jsToLower m ++ "-" ++ String.mk (a ++ '-' :: b) ++ "." ++ e)
  ∧ (∀ (m d e : String), (∀ c ∈ (jsToLower d).data, c ≠ ' ') →
        getFileName m d e =
          "cnc-design-" ++ jsToLower m ++ "-" ++ jsToLower d ++ "." ++ e) := by
  constructor
  · intro m d e a b ha hd
    rw [getFileName, hd, jsReplaceFirst_first a b ' ' '-' ha]
  · intro m d e hd
    rw [getFileName, jsReplaceFirst_of_not_mem _ ' ' '-' hd, string_mk_data]

/-- Witness for C8 at material "Oak", design type "A B C", format dxf. -/
theorem C8_filename_shape_witness :
    getFileName "Oak" "A B C" "dxf" =
      "cnc-design-" ++ jsToLower "Oak" ++ "-" ++
        String.mk (['a'] ++ '-' :: ['b', ' ', 'c']) ++ "." ++ "dxf" :=
  C8_filename_shape.1 "Oak" "A B C" "dxf" ['a'] ['b', ' ', 'c'] (by decide) (by decide)

/-- C2 (failing input): loading a 1×1 image while the canvas is already
1×1 and the history holds two entries still resets the history to the
single new entry at index 0 — `setHistory([initialImageData])` and
`setHistoryIndex(0)` run unconditionally, outside the dimension check
that the handler's own comment says should guard the history reset. -/
theorem C2_same_dims_load_resets_history :
    (imageOnload 1 1 bufC sameDimsState).history = [bufC]
  ∧ (imageOnload 1 1 bufC sameDimsState).historyIndex = 0
  ∧ sameDimsState.canvasWidth = 1 ∧ sameDimsState.canvasHeight = 1
  ∧ sameDimsState.history = [bufA, bufB]
  ∧ bufC ∉ sameDimsState.history := by
  refine ⟨rfl, rfl, rfl, rfl, rfl, ?_⟩
  decide

/-- C9: for every export format, running the download with an
initialised canvas leaves the history stack, history index, view
transform, tool, line width, drawing/panning flags (and canvas
dimensions) untouched, and sets the download-menu flag to closed. -/
theorem C9_download_frame (w h : Nat) (fmt : ExportFormat)
    (material designType : String) (st : EditorState) :
    (handleDownload (some (w, h)) fmt material designType st).1.history = st.history
  ∧ (handleDownload (some (w, h)) fmt material designType st).1.historyIndex = st.historyIndex
  ∧ (handleDownload (some (w, h)) fmt material designType st).1.viewTransform = st.viewTransform
  ∧ (handleDownload (some (w, h)) fmt material designType st).1.tool = st.tool
  ∧ (handleDownload (some (w, h)) fmt material designType st).1.lineWidth = st.lineWidth
  ∧ (handleDownload (some (w, h)) fmt material designType st).1.isDrawing = st.isDrawing
  ∧ (handleDownload (some (w, h)) fmt material designType st).1.isPanning = st.isPanning
  ∧ (handleDownload (some (w, h)) fmt material designType st).1.canvasWidth = st.canvasWidth
  ∧ (handleDownload (some (w, h)) fmt material designType st).1.canvasHeight = st.canvasHeight
  ∧ (handleDownload (some (w, h)) fmt material designType st).1.isDownloadMenuOpen = false :=
  ⟨rfl, rfl, rfl, rfl, rfl, rfl, rfl, rfl, rfl, rfl⟩
